import Mathlib

/-!
# Verification of vtex/cli-plugin-redirects (rewriter module)

A shallow embedding, in Lean 4, of the core logic of the redirects CLI
plugin: the error classifier and backoff policy (`src/modules/rewriter/utils.ts`),
the ordered file-write queue and the export loop's error handler
(`src/modules/rewriter/export.ts`), together with theorems about them.

JS numbers are modelled as `ℚ` (the claims under study involve only exact
rational arithmetic), machine-level strings as Lean `String`, absent
(`undefined`/`null`) values as `Option`, and environmental behaviour
(`Math.random`, `Date`) as explicit function parameters.
-/

namespace Redirects

/-! ## JS primitives used by `utils.ts` -/

/-- JS truthiness for an optional string: `undefined` and `""` are falsy. -/
def jsTruthyStr : Option String → Option String
  | none => none
  | some s => if s = "" then none else some s

/-- JS truthiness for an optional number: `undefined` and `0` are falsy. -/
def jsTruthyNum : Option Int → Option Int
  | none => none
  | some n => if n = 0 then none else some n

/-- `a || b` on optional strings (first truthy value, else the last operand,
collapsed to `none` when falsy). -/
def jsOrStr (a b : Option String) : Option String :=
  match jsTruthyStr a with
  | some s => some s
  | none => jsTruthyStr b

/-- Value of a digit run, base 10. -/
def digitsToNat (cs : List Char) : Nat :=
  cs.foldl (fun a c => a * 10 + (c.toNat - 48)) 0

/-- JS `parseInt(s, 10)`: skip leading whitespace, optional sign, then the
longest digit prefix; `none` models `NaN` (no digits). -/
def jsParseInt (s : String) : Option Int :=
  let cs := s.toList.dropWhile (fun c => c = ' ' || c = '\t' || c = '\n' || c = '\r')
  let core : List Char → Option Nat := fun l =>
    let ds := l.takeWhile Char.isDigit
    if ds.isEmpty then none else some (digitsToNat ds)
  match cs with
  | '-' :: rest => (core rest).map (fun n => -(n : Int))
  | '+' :: rest => (core rest).map (fun n => (n : Int))
  | rest => (core rest).map (fun n => (n : Int))

/-! ## Error model

A thrown JS value, as far as `classifyError` inspects it.  `none` at the
outer `Option` models `null`/`undefined`.  Header lookups keep the two
spellings the code reads. -/

structure JsHeaders where
  retryAfterLower : Option String
  retryAfterUpper : Option String
  deriving DecidableEq, Repr

structure JsError where
  status : Option Int
  responseStatus : Option Int
  statusCode : Option Int
  headers : Option JsHeaders
  responseHeaders : Option JsHeaders
  code : Option String
  message : Option String
  deriving DecidableEq, Repr

/-- A `JsError` with every field absent. -/
def JsError.empty : JsError :=
  { status := none, responseStatus := none, statusCode := none,
    headers := none, responseHeaders := none, code := none, message := none }

/-- `error.status || error.response?.status || error.statusCode`. -/
def statusOf (e : JsError) : Option Int :=
  match jsTruthyNum e.status with
  | some n => some n
  | none =>
    match jsTruthyNum e.responseStatus with
    | some n => some n
    | none => jsTruthyNum e.statusCode

/-- `error.headers || error.response?.headers || {}` (objects are truthy). -/
def headersOf (e : JsError) : JsHeaders :=
  match e.headers with
  | some h => h
  | none =>
    match e.responseHeaders with
    | some h => h
    | none => { retryAfterLower := none, retryAfterUpper := none }

/-- Optional-status range check: `status >= lo && status < hi` is false on
`undefined` (NaN comparisons). -/
def statusInRange (s : Option Int) (lo hi : Int) : Bool :=
  match s with
  | some n => decide (lo ≤ n) && decide (n < hi)
  | none => false

/-- `parseRetryAfterHeader` of `utils.ts`: a numeric header value is
seconds, converted to milliseconds; otherwise it is treated as an HTTP
date whose distance from now (clamped at 0) is the wait.  `dateMs` and
`nowMs` supply the ambient `Date` semantics. -/
def parseRetryAfterHeader (dateMs : String → ℚ) (nowMs : ℚ)
    (retryAfter : Option String) : ℚ :=
  match jsTruthyStr retryAfter with
  | none => 0
  | some s =>
    match jsParseInt s with
    | some n => (n : ℚ) * 1000
    | none => max 0 (dateMs s - nowMs)

inductive ErrorType where
  | rate_limit
  | server_error
  | client_error
  | network_error
  | unknown
  deriving DecidableEq, Repr

structure Classification where
  type : ErrorType
  retryable : Bool
  retryAfter : Option ℚ
  deriving DecidableEq, Repr

/-- `classifyError` of `utils.ts`, branch for branch. -/
def classifyError (dateMs : String → ℚ) (nowMs : ℚ) (err : Option JsError) :
    Classification :=
  match err with
  | none => { type := .unknown, retryable := false, retryAfter := none }
  | some e =>
    let status := statusOf e
    let headers := headersOf e
    if status = some 429 then
      { type := .rate_limit, retryable := true,
        retryAfter := some (parseRetryAfterHeader dateMs nowMs
          (jsOrStr headers.retryAfterLower headers.retryAfterUpper)) }
    else if statusInRange status 500 600 then
      { type := .server_error, retryable := true, retryAfter := none }
    else if statusInRange status 400 500 then
      { type := .client_error, retryable := false, retryAfter := none }
    else if e.code = some "ECONNRESET" ∨ e.code = some "ETIMEDOUT" ∨
        e.code = some "ENOTFOUND" then
      { type := .network_error, retryable := true, retryAfter := none }
    else
      { type := .unknown, retryable := false, retryAfter := none }

/-! ## CSV encoding (`utils.ts` `encode`, `export.ts` `writePageToFile`) -/

/-- Replace the first occurrence of `pat` in the character list (JS
`String.prototype.replace` with a *string* pattern replaces only the
first match). -/
def replaceFirstAux (pat repl : List Char) : List Char → List Char
  | [] => []
  | c :: cs =>
    if pat.isPrefixOf (c :: cs) then repl ++ (c :: cs).drop pat.length
    else c :: replaceFirstAux pat repl cs

/-- JS `s.replace(pat, repl)` with a string pattern. -/
def jsReplaceFirst (s pat repl : String) : String :=
  ⟨replaceFirstAux pat.toList repl.toList s.toList⟩

/-- `createEncoder(DELIMITER)` of `utils.ts`: `x.replace(';', '%3B')`
(`encodeURIComponent(';') = "%3B"`). -/
def encode (x : String) : String :=
  jsReplaceFirst x ";" "%3B"

/-- `String(value).replace(/"/g, '""')`: a global regex, so every quote is
doubled. -/
def escapeQuotes (s : String) : String :=
  ⟨s.toList.flatMap (fun c => if c = '"' then ['"', '"'] else [c])⟩

/-- One CSV field: the escaped value wrapped in double quotes. -/
def csvField (value : String) : String :=
  "\"" ++ escapeQuotes value ++ "\""

/-- An exported redirect route as `writePageToFile` consumes it: `from`
and `to` are present strings; the remaining fields may be absent
(`undefined || '' = ''`). -/
structure Route where
  from' : String
  to' : String
  type : Option String
  endDate : Option String
  binding : Option String
  deriving DecidableEq, Repr

/-- `undefined || ''`. -/
def jsOrEmptyStr : Option String → String
  | none => ""
  | some s => s

/-- The `encodedRoute` object: `from` and `to` run through `encode`. -/
def encodeRoute (r : Route) : Route :=
  { r with from' := encode r.from', to' := encode r.to' }

/-- The CSV row for a route: `FIELDS.map(quote-wrap).join(';')`, field
order `from;to;type;endDate;binding`. -/
def csvRow (r : Route) : String :=
  String.intercalate ";" [csvField r.from', csvField r.to',
    csvField (jsOrEmptyStr r.type), csvField (jsOrEmptyStr r.endDate),
    csvField (jsOrEmptyStr r.binding)]

/-- The full text of one route's row as accumulated into `csvBatch`. -/
def rowText (r : Route) : String :=
  csvRow (encodeRoute r) ++ "\n"

/-- The write loop of `writePageToFile`: accumulate `csvBatch`, emitting a
chunk to the stream when `(i+1) % batchSize == 0` or at the last route
(`rs.isEmpty` is `i == routes.length - 1` since `i` counts processed
routes). Returns the list of chunks in write order. -/
def writeChunksGo (batchSize : Nat) : List Route → Nat → String → List String
  | [], _, _ => []
  | r :: rs, i, csvBatch =>
    let csvBatch' := csvBatch ++ rowText r
    if (i + 1) % batchSize = 0 || rs.isEmpty then
      csvBatch' :: writeChunksGo batchSize rs (i + 1) ""
    else
      writeChunksGo batchSize rs (i + 1) csvBatch'

/-- The chunks written by `writePageToFile` for one page. -/
def writePageChunks (batchSize : Nat) (routes : List Route) : List String :=
  writeChunksGo batchSize routes 0 ""

/-- The byte (character) stream obtained by concatenating a list of
written chunks. -/
def strBytes (l : List String) : List Char :=
  (l.map String.data).flatten

/-! ## Backoff arithmetic (`utils.ts`) -/

/-- `calculateBackoffDelay`: exponential delay with a multiplicative
jitter; `rand` is the ambient `Math.random()` draw. -/
def calculateBackoffDelay (attempt : Nat) (baseDelay maxDelay : ℚ) (rand : ℚ) : ℚ :=
  let exponentialDelay := baseDelay * 2 ^ ((attempt : ℤ) - 1)
  let jitter := exponentialDelay * (1 / 10) * rand
  min (exponentialDelay + jitter) maxDelay

/-- `sleepWithJitter` (with the default `jitterPercent = 0.1`): the
number of milliseconds actually slept, `Math.floor(baseDelay + jitter)`. -/
def sleepWithJitter (baseDelay : ℚ) (rand : ℚ) : ℤ :=
  ⌊baseDelay + baseDelay * (1 / 10) * rand⌋

/-! ## `retryWithBackoff` (`utils.ts`)

The operation is modelled as an oracle `op : Nat → Except (Option JsError) T`
giving the outcome of each invocation in turn (`.error` = the promise
rejected with that thrown value).  `rand` supplies the `Math.random()`
draws: draw `2*attempt` feeds `calculateBackoffDelay`, draw `2*attempt+1`
feeds `sleepWithJitter`.  The trace records, per retry wait, the `delay`
chosen by the wrapper and the milliseconds actually slept. -/

structure RetryConfig where
  maxRetries : Nat
  baseDelay : ℚ
  maxDelay : ℚ
  deriving DecidableEq, Repr

def DEFAULT_RETRY_CONFIG : RetryConfig :=
  { maxRetries := 5, baseDelay := 1000, maxDelay := 30000 }

instance exceptDecEq {ε α : Type _} [DecidableEq ε] [DecidableEq α] :
    DecidableEq (Except ε α) := fun a b =>
  match a, b with
  | .ok x, .ok y =>
    if h : x = y then .isTrue (congrArg Except.ok h)
    else .isFalse (fun hc => h (Except.ok.inj hc))
  | .error x, .error y =>
    if h : x = y then .isTrue (congrArg Except.error h)
    else .isFalse (fun hc => h (Except.error.inj hc))
  | .ok _, .error _ => .isFalse (fun hc => Except.noConfusion hc)
  | .error _, .ok _ => .isFalse (fun hc => Except.noConfusion hc)

structure RetryOutcome (T : Type) where
  result : Except (Option JsError) T
  invocations : Nat
  sleeps : List (ℚ × ℤ)
  deriving DecidableEq, Repr

/-- JS truthiness of `errorInfo.retryAfter` (a number: `0` is falsy). -/
def raTruthy : Option ℚ → Bool
  | none => false
  | some q => decide (q ≠ 0)

/-- The delay the wrapper picks before retry number `attempt + 1`: the
server-supplied `retryAfter` when the error is a truthy-rate-limit one,
exponential backoff otherwise. -/
def retryDelay (dateMs : String → ℚ) (nowMs : ℚ) (cfg : RetryConfig)
    (rand : Nat → ℚ) (attempt : Nat) (e : Option JsError) : ℚ :=
  if decide ((classifyError dateMs nowMs e).type = ErrorType.rate_limit) &&
      raTruthy (classifyError dateMs nowMs e).retryAfter then
    (classifyError dateMs nowMs e).retryAfter.getD 0
  else
    calculateBackoffDelay (attempt + 1) cfg.baseDelay cfg.maxDelay (rand (2 * attempt))

/-- The `while (attempt <= retryConfig.maxRetries)` loop.  `fuel` is the
number of loop iterations still permitted (`maxRetries + 1 - attempt`);
the `fuel = 0` case is the `throw lastError` after the loop, which is
unreachable (proved below), hence `none`. -/
def retryAux {T : Type} (dateMs : String → ℚ) (nowMs : ℚ)
    (op : Nat → Except (Option JsError) T) (cfg : RetryConfig) (rand : Nat → ℚ) :
    Nat → Nat → List (ℚ × ℤ) → Option (RetryOutcome T)
  | _, 0, _ => none
  | attempt, fuel + 1, sleeps =>
    match op attempt with
    | .ok v => some { result := .ok v, invocations := attempt + 1, sleeps := sleeps }
    | .error e =>
      if (classifyError dateMs nowMs e).retryable = false then
        some { result := .error e, invocations := attempt + 1, sleeps := sleeps }
      else if cfg.maxRetries < attempt + 1 then
        some { result := .error e, invocations := attempt + 1, sleeps := sleeps }
      else
        retryAux dateMs nowMs op cfg rand (attempt + 1) fuel
          (sleeps ++ [(retryDelay dateMs nowMs cfg rand attempt e,
            sleepWithJitter (retryDelay dateMs nowMs cfg rand attempt e)
              (rand (2 * attempt + 1)))])

/-- `retryWithBackoff`: run the loop from `attempt = 0`. -/
def retryWithBackoff {T : Type} (dateMs : String → ℚ) (nowMs : ℚ)
    (op : Nat → Except (Option JsError) T) (cfg : RetryConfig)
    (rand : Nat → ℚ) : Option (RetryOutcome T) :=
  retryAux dateMs nowMs op cfg rand 0 (cfg.maxRetries + 1) []

/-! ## `FileWriteQueue` (`export.ts`)

The queue runs on one JS event loop.  The only suspension point inside
`processQueue` is the `await this.writePageToFile(...)` after each page is
written; a concurrent `addPage` can run there (it sees `isWriting = true`,
enqueues and returns 0).  The loop re-check after the `await`, and the
`finally` clearing `isWriting`, are synchronous with the preceding write.
An execution is therefore a schedule of atomic micro-steps:

* `arrive i` — the synchronous part of `addPage` for page `i`: insert into
  the map; if a drain is running, return 0; otherwise start draining —
  if the next expected page is available it is written synchronously
  (the call becomes the active drainer), else return 0 at once.
* `drain` — the active drainer resumes after an `await`: if the next
  expected page is queued, write it; otherwise finish, returning the
  accumulated `processedCount`.

`pages i` gives the routes of page `i`; each page index in `0..N-1` is
submitted exactly once (`remaining` tracks the not-yet-submitted ones). -/

structure QState where
  pending : Finset Nat
  nextExpected : Nat
  draining : Bool
  acc : Nat
  chunks : List String
  returns : List Nat
  remaining : Finset Nat
  deriving DecidableEq

inductive QStep where
  | arrive (i : Nat)
  | drain
  deriving DecidableEq, Repr

/-- The chunks `writePageToFile` emits for page `i`. -/
def writePage (pages : Nat → List Route) (batchSize : Nat) (i : Nat) : List String :=
  writePageChunks batchSize (pages i)

/-- One iteration of the `while (this.queue.has(this.nextExpectedPage))`
body: write the page, delete it from the map, advance, accumulate. -/
def writeNext (pages : Nat → List Route) (batchSize : Nat) (s : QState) : QState :=
  { s with chunks := s.chunks ++ writePage pages batchSize s.nextExpected,
           pending := s.pending.erase s.nextExpected,
           nextExpected := s.nextExpected + 1,
           acc := s.acc + (pages s.nextExpected).length }

/-- The micro-step relation (`none` = the step is not enabled). -/
def qstep (pages : Nat → List Route) (batchSize : Nat) (s : QState) :
    QStep → Option QState
  | .arrive i =>
    if i ∈ s.remaining then
      let s1 : QState :=
        { s with remaining := s.remaining.erase i, pending := insert i s.pending }
      if s1.draining then some { s1 with returns := s1.returns ++ [0] }
      else if s1.nextExpected ∈ s1.pending then
        some { writeNext pages batchSize s1 with draining := true }
      else some { s1 with returns := s1.returns ++ [0] }
    else none
  | .drain =>
    if s.draining then
      if s.nextExpected ∈ s.pending then some (writeNext pages batchSize s)
      else some { s with draining := false, acc := 0, returns := s.returns ++ [s.acc] }
    else none

/-- Run a schedule of micro-steps. -/
def qrun (pages : Nat → List Route) (batchSize : Nat) (s : QState) :
    List QStep → Option QState
  | [] => some s
  | st :: tr =>
    match qstep pages batchSize s st with
    | none => none
    | some s' => qrun pages batchSize s' tr

/-- The freshly constructed queue, `N` pages still to submit. -/
def qinit (N : Nat) : QState :=
  { pending := ∅, nextExpected := 0, draining := false, acc := 0,
    chunks := [], returns := [], remaining := Finset.range N }

/-- A complete execution: every page was submitted and the final drain has
finished (every `addPage` promise resolved). -/
def QComplete (s : QState) : Prop :=
  s.remaining = ∅ ∧ s.draining = false

instance (s : QState) : Decidable (QComplete s) := by
  unfold QComplete; infer_instance

/-! ## Checkpoint store (`utils.ts` `saveMetainfo` / `deleteMetainfo`)
and the export loop's catch handler (`export.ts`) -/

structure CheckpointData where
  next : Option String
  routeCount : ℚ
  deriving DecidableEq, Repr

structure CheckpointEntry where
  counter : ℚ
  data : CheckpointData
  deriving DecidableEq, Repr

/-- The metainfo JSON document: operation type → fingerprint → entry,
modelled as insertion-ordered association lists. -/
abbrev Metainfo := List (String × List (String × CheckpointEntry))

def lookupKey {α : Type _} (l : List (String × α)) (k : String) : Option α :=
  (l.find? (fun p => p.1 == k)).map Prod.snd

/-- `obj[k] = v` on a JS object: replace the binding in place, or append
a fresh one. -/
def setKey {α : Type _} : List (String × α) → String → α → List (String × α)
  | [], k, v => [(k, v)]
  | p :: ps, k, v => if p.1 == k then (k, v) :: ps else p :: setKey ps k v

/-- `delete obj[k]` on a JS object. -/
def removeKey {α : Type _} (l : List (String × α)) (k : String) :
    List (String × α) :=
  l.filter (fun p => !(p.1 == k))

/-- `saveMetainfo`: upsert `metainfo[type][hash] = {counter, data}` and
persist the whole document. -/
def saveMetainfo (m : Metainfo) (ty hash : String) (counter : ℚ)
    (d : CheckpointData) : Metainfo :=
  let inner := (lookupKey m ty).getD []
  setKey m ty (setKey inner hash { counter := counter, data := d })

/-- `deleteMetainfo`: `if (!metainfo[type]) return` (no write), else delete
`metainfo[type][hash]` and persist.  The boolean records whether the file
was written. -/
def deleteMetainfo (m : Metainfo) (ty hash : String) : Metainfo × Bool :=
  match lookupKey m ty with
  | none => (m, false)
  | some inner => (setKey m ty (removeKey inner hash), true)

/-- The saved entry for one fingerprint. -/
def getEntry (m : Metainfo) (ty hash : String) : Option CheckpointEntry :=
  (lookupKey m ty).bind (fun inner => lookupKey inner hash)

/-- Contiguous-substring check on character lists. -/
def listInfix (pat : List Char) : List Char → Bool
  | [] => pat.isEmpty
  | c :: cs => pat.isPrefixOf (c :: cs) || listInfix pat cs

/-- JS `String.prototype.includes`. -/
def strIncludes (s pat : String) : Bool :=
  listInfix pat.toList s.toList

/-- The file-system error messages the export loop treats as fatal. -/
def fsErrorMessage (m : String) : Bool :=
  strIncludes m "No space left" || strIncludes m "Permission denied" ||
    strIncludes m "File system error"

/-- How one iteration of the `do { ... } while (next)` pagination loop
ends after the catch block runs: `nextIteration` when control reaches the
`while (next)` test and it is truthy (the body runs again),
`exitLoop` when the test is falsy (the loop completes and the export
falls through to the drain/cleanup/`Finished!` path), `rethrow` when the
error propagates out of the loop. -/
inductive CatchOutcome where
  | nextIteration
  | exitLoop
  | rethrow
  deriving DecidableEq, Repr

/-- ECMAScript semantics of `continue` inside `do { ... } while (next)`:
control jumps to the `while (next)` *test*, so the body runs again only
if `next` is truthy at that moment. -/
def doWhileAfterContinue (next : Option String) : CatchOutcome :=
  if (jsTruthyStr next).isSome then .nextIteration else .exitLoop

structure CatchResult where
  metainfo : Metainfo
  next : Option String
  routeCount : ℚ
  saves : Nat
  deletedCheckpoint : Bool
  outcome : CatchOutcome
  deriving DecidableEq, Repr

/-- The `catch` block of the export pagination loop (`export.ts`),
branch for branch: a timeout message clears the checkpoint, resets the
cursor and count and executes `continue` — which, in the enclosing
`do { ... } while (next)`, jumps to the `while (next)` test with the
just-assigned `next = undefined`; a file-system message rethrows;
otherwise the error is classified, a `server_error` saves a recovery
checkpoint, and every remaining path saves a checkpoint and rethrows. -/
def handleExportCatch (dateMs : String → ℚ) (nowMs : ℚ) (indexHash : String)
    (e : Option JsError) (metainfo : Metainfo) (next : Option String)
    (routeCount : ℚ) : CatchResult :=
  let msg : Option String := match e with | none => none | some err => err.message
  let isTimeout := match msg with
    | some m => strIncludes m "Request timeout"
    | none => false
  if isTimeout then
    let del := deleteMetainfo metainfo "exports" indexHash
    { metainfo := del.1, next := none, routeCount := 0,
      saves := 0, deletedCheckpoint := del.2,
      outcome := doWhileAfterContinue none }
  else
    let isFs := match msg with
      | some m => fsErrorMessage m
      | none => false
    if isFs then
      { metainfo := metainfo, next := next, routeCount := routeCount,
        saves := 0, deletedCheckpoint := false, outcome := .rethrow }
    else
      let errorInfo := classifyError dateMs nowMs e
      let isServer := errorInfo.type = ErrorType.server_error
      let afterServer :=
        if isServer then
          saveMetainfo metainfo "exports" indexHash 0
            { next := next, routeCount := routeCount }
        else metainfo
      { metainfo := saveMetainfo afterServer "exports" indexHash 0
          { next := next, routeCount := routeCount },
        next := next, routeCount := routeCount,
        saves := (if isServer then 1 else 0) + 1,
        deletedCheckpoint := false, outcome := .rethrow }

/-! ## Theorems -/

/-- C3 (code bug): `encode` is `x.replace(';', '%3B')` with a *string*
pattern, which in JS replaces only the first occurrence.  On the input of
the repository's own test (`import.test.ts`, `should handle multiple
delimiter occurrences`, which expects the result not to contain `;`),
three of the four delimiters survive unencoded and reach the CSV row. -/
theorem encode_keeps_later_delimiters :
    encode "path;with;many;semicolons;" = "path%3Bwith;many;semicolons;" ∧
    strIncludes (encode "path;with;many;semicolons;") ";" = true ∧
    strIncludes
      (csvRow (encodeRoute
        { from' := "path;with;many;semicolons;", to' := "/t",
          type := none, endDate := none, binding := none }))
      "with;many" = true := by
  refine ⟨rfl, rfl, rfl⟩

/-- C10: `classifyError` is total — it returns a classification for every
input, and `null`/`undefined` as well as an error value with no status,
response, headers or code fields map to `unknown`, not retryable. -/
theorem classifyError_total (dateMs : String → ℚ) (nowMs : ℚ) :
    (∀ e : Option JsError, ∃ c : Classification, classifyError dateMs nowMs e = c) ∧
    classifyError dateMs nowMs none =
      { type := .unknown, retryable := false, retryAfter := none } ∧
    classifyError dateMs nowMs (some JsError.empty) =
      { type := .unknown, retryable := false, retryAfter := none } := by
  exact ⟨fun e => ⟨_, rfl⟩, rfl, rfl⟩

/-- C7: `calculateBackoffDelay` equals
`min(baseDelay * 2^(attempt-1) * (1 + j), maxDelay)` for a jitter
`j ∈ [0, 0.1)`, is bounded by `maxDelay`, and (at zero jitter) is
monotone in the attempt number. -/
theorem calculateBackoffDelay_spec (a : Nat) (baseDelay maxDelay rand : ℚ)
    (ha : 1 ≤ a) (hb : 0 < baseDelay) (hm : 0 < maxDelay)
    (hr0 : 0 ≤ rand) (hr1 : rand < 1) :
    (∃ j : ℚ, 0 ≤ j ∧ j < 1 / 10 ∧
      calculateBackoffDelay a baseDelay maxDelay rand =
        min (baseDelay * 2 ^ ((a : ℤ) - 1) * (1 + j)) maxDelay) ∧
    calculateBackoffDelay a baseDelay maxDelay rand ≤ maxDelay ∧
    calculateBackoffDelay a baseDelay maxDelay 0 ≤
      calculateBackoffDelay (a + 1) baseDelay maxDelay 0 := by
  refine ⟨⟨rand / 10, by positivity, by linarith, ?_⟩, min_le_right _ _, ?_⟩
  · unfold calculateBackoffDelay
    ring_nf
  · unfold calculateBackoffDelay
    have hexp : baseDelay * 2 ^ ((a : ℤ) - 1) ≤ baseDelay * 2 ^ (((a : Nat) + 1 : ℤ) - 1) := by
      apply mul_le_mul_of_nonneg_left _ (le_of_lt hb)
      apply zpow_le_zpow_right₀ (by norm_num)
      omega
    simp only [mul_zero, zero_mul, add_zero]
    exact min_le_min (by push_cast at hexp ⊢; linarith) le_rfl

/-- Witness for `calculateBackoffDelay_spec` at attempt 1, base 1000 ms,
cap 30000 ms, random draw 1/2. -/
theorem calculateBackoffDelay_spec_witness :
    calculateBackoffDelay 1 1000 30000 (1 / 2) ≤ 30000 ∧
    calculateBackoffDelay 1 1000 30000 0 ≤ calculateBackoffDelay 2 1000 30000 0 :=
  ⟨(calculateBackoffDelay_spec 1 1000 30000 (1 / 2) le_rfl (by norm_num)
      (by norm_num) (by norm_num) (by norm_num)).2.1,
   (calculateBackoffDelay_spec 1 1000 30000 (1 / 2) le_rfl (by norm_num)
      (by norm_num) (by norm_num) (by norm_num)).2.2⟩

/-- C4: the classification taxonomy, with the code's guard order: status
429 is `rate_limit` (retryable, `retryAfter` parsed from the retry-after
header); 5xx is `server_error` (retryable); other 4xx are `client_error`
(not retryable); with no status in those ranges, a connection-reset,
timeout or DNS-failure code is `network_error` (retryable); everything
else is `unknown` (not retryable). -/
theorem classifyError_taxonomy (dateMs : String → ℚ) (nowMs : ℚ) (e : JsError) :
    (statusOf e = some 429 →
      classifyError dateMs nowMs (some e) =
        { type := .rate_limit, retryable := true,
          retryAfter := some (parseRetryAfterHeader dateMs nowMs
            (jsOrStr (headersOf e).retryAfterLower (headersOf e).retryAfterUpper)) }) ∧
    (∀ n : Int, statusOf e = some n → 500 ≤ n → n < 600 →
      classifyError dateMs nowMs (some e) =
        { type := .server_error, retryable := true, retryAfter := none }) ∧
    (∀ n : Int, statusOf e = some n → 400 ≤ n → n < 500 → n ≠ 429 →
      classifyError dateMs nowMs (some e) =
        { type := .client_error, retryable := false, retryAfter := none }) ∧
    ((∀ n : Int, statusOf e = some n → n < 400 ∨ 600 ≤ n) →
      (e.code = some "ECONNRESET" ∨ e.code = some "ETIMEDOUT" ∨
        e.code = some "ENOTFOUND") →
      classifyError dateMs nowMs (some e) =
        { type := .network_error, retryable := true, retryAfter := none }) ∧
    ((∀ n : Int, statusOf e = some n → n < 400 ∨ 600 ≤ n) →
      e.code ≠ some "ECONNRESET" → e.code ≠ some "ETIMEDOUT" →
      e.code ≠ some "ENOTFOUND" →
      classifyError dateMs nowMs (some e) =
        { type := .unknown, retryable := false, retryAfter := none }) := by
  have hrange : ∀ n lo hi : Int,
      statusInRange (some n) lo hi = true ↔ (lo ≤ n ∧ n < hi) := by
    intro n lo hi
    simp [statusInRange]
  refine ⟨?_, ?_, ?_, ?_, ?_⟩
  · intro h
    simp [classifyError, h]
  · intro n h h5 h6
    simp only [classifyError]
    rw [h, if_neg (by intro hc; injection hc with hc'; omega),
      if_pos ((hrange n 500 600).mpr ⟨h5, h6⟩)]
  · intro n h h4 h5 h429'
    simp only [classifyError]
    rw [h, if_neg (by intro hc; injection hc with hc'; exact h429' hc'),
      if_neg (by simp [statusInRange]; omega),
      if_pos ((hrange n 400 500).mpr ⟨h4, h5⟩)]
  · intro hout hcode
    simp only [classifyError]
    cases hs : statusOf e with
    | none =>
      rw [if_neg (by simp), if_neg (by simp [statusInRange]),
        if_neg (by simp [statusInRange]), if_pos hcode]
    | some n =>
      rcases hout n hs with h | h <;>
        rw [if_neg (by intro hc; injection hc with hc'; omega),
          if_neg (by simp [statusInRange]; omega),
          if_neg (by simp [statusInRange]; omega),
          if_pos hcode]
  · intro hout hc1 hc2 hc3
    have hnc : ¬ (e.code = some "ECONNRESET" ∨ e.code = some "ETIMEDOUT" ∨
        e.code = some "ENOTFOUND") := by tauto
    simp only [classifyError]
    cases hs : statusOf e with
    | none =>
      rw [if_neg (by simp), if_neg (by simp [statusInRange]),
        if_neg (by simp [statusInRange]), if_neg hnc]
    | some n =>
      rcases hout n hs with h | h <;>
        rw [if_neg (by intro hc; injection hc with hc'; omega),
          if_neg (by simp [statusInRange]; omega),
          if_neg (by simp [statusInRange]; omega),
          if_neg hnc]

/-- A thrown 429 with a numeric retry-after header, for witnesses. -/
def err429 : JsError :=
  { JsError.empty with
    status := some 429,
    headers := some { retryAfterLower := some "5", retryAfterUpper := none } }

/-- Witness for `classifyError_taxonomy`: a thrown value with status 429
and a `retry-after: 5` header is classified `rate_limit`, retryable, with
a 5000 ms wait. -/
theorem classifyError_taxonomy_witness :
    statusOf err429 = some 429 ∧
    classifyError (fun _ => 0) 0 (some err429) =
      { type := .rate_limit, retryable := true, retryAfter := some 5000 } := by
  constructor
  · rfl
  · have h1 : jsOrStr (headersOf err429).retryAfterLower
        (headersOf err429).retryAfterUpper = some "5" := rfl
    have h2 : parseRetryAfterHeader (fun _ => 0) 0 (some "5") = 5000 := by
      simp only [parseRetryAfterHeader,
        show jsTruthyStr (some "5") = some "5" from rfl,
        show jsParseInt "5" = some 5 from rfl]
      norm_num
    rw [(classifyError_taxonomy (fun _ => 0) 0 err429).1 rfl, h1, h2]

/-! ### Retry-loop lemmas -/

theorem retryAux_isSome {T : Type} (dateMs : String → ℚ) (nowMs : ℚ)
    (op : Nat → Except (Option JsError) T) (cfg : RetryConfig) (rand : Nat → ℚ) :
    ∀ (fuel attempt : Nat) (sleeps : List (ℚ × ℤ)),
      cfg.maxRetries < attempt + fuel → 1 ≤ fuel →
      (retryAux dateMs nowMs op cfg rand attempt fuel sleeps).isSome := by
  intro fuel
  induction fuel with
  | zero => intro attempt sleeps _ h1; omega
  | succ f ih =>
    intro attempt sleeps hlt _
    cases hop : op attempt with
    | ok v => simp [retryAux, hop]
    | error e =>
      simp only [retryAux, hop]
      split
      · simp
      · split
        · simp
        · rename_i hc1 hc2
          exact ih (attempt + 1) _ (by omega) (by omega)

theorem retryAux_invocations_le {T : Type} (dateMs : String → ℚ) (nowMs : ℚ)
    (op : Nat → Except (Option JsError) T) (cfg : RetryConfig) (rand : Nat → ℚ) :
    ∀ (fuel attempt : Nat) (sleeps : List (ℚ × ℤ)) (r : RetryOutcome T),
      retryAux dateMs nowMs op cfg rand attempt fuel sleeps = some r →
      r.invocations ≤ attempt + fuel := by
  intro fuel
  induction fuel with
  | zero => intro attempt sleeps r h; simp [retryAux] at h
  | succ f ih =>
    intro attempt sleeps r h
    cases hop : op attempt with
    | ok v =>
      simp only [retryAux, hop, Option.some.injEq] at h
      subst h; simp
    | error e =>
      simp only [retryAux, hop] at h
      split at h
      · cases h; simp
      · split at h
        · cases h; simp
        · have := ih (attempt + 1) _ r h
          omega

theorem retryAux_sleeps_mono {T : Type} (dateMs : String → ℚ) (nowMs : ℚ)
    (op : Nat → Except (Option JsError) T) (cfg : RetryConfig) (rand : Nat → ℚ) :
    ∀ (fuel attempt : Nat) (sleeps : List (ℚ × ℤ)) (r : RetryOutcome T),
      retryAux dateMs nowMs op cfg rand attempt fuel sleeps = some r →
      ∃ suffix, r.sleeps = sleeps ++ suffix := by
  intro fuel
  induction fuel with
  | zero => intro attempt sleeps r h; simp [retryAux] at h
  | succ f ih =>
    intro attempt sleeps r h
    cases hop : op attempt with
    | ok v =>
      simp only [retryAux, hop, Option.some.injEq] at h
      subst h; exact ⟨[], by simp⟩
    | error e =>
      simp only [retryAux, hop] at h
      split at h
      · cases h; exact ⟨[], by simp⟩
      · split at h
        · cases h; exact ⟨[], by simp⟩
        · obtain ⟨suffix, hs⟩ := ih (attempt + 1) _ r h
          exact ⟨[(retryDelay dateMs nowMs cfg rand attempt e,
              sleepWithJitter (retryDelay dateMs nowMs cfg rand attempt e)
                (rand (2 * attempt + 1)))] ++ suffix,
            by rw [hs, List.append_assoc]⟩

theorem retryAux_all_fail {T : Type} (dateMs : String → ℚ) (nowMs : ℚ)
    (op : Nat → Except (Option JsError) T) (cfg : RetryConfig) (rand : Nat → ℚ)
    (es : Nat → Option JsError)
    (hop : ∀ k, op k = Except.error (es k))
    (hr : ∀ k, (classifyError dateMs nowMs (es k)).retryable = true) :
    ∀ (fuel attempt : Nat) (sleeps : List (ℚ × ℤ)),
      attempt + fuel = cfg.maxRetries + 1 → 1 ≤ fuel →
      ∃ sl, retryAux dateMs nowMs op cfg rand attempt fuel sleeps =
        some { result := Except.error (es cfg.maxRetries),
               invocations := cfg.maxRetries + 1, sleeps := sl } := by
  intro fuel
  induction fuel with
  | zero => intro attempt sleeps _ h1; omega
  | succ f ih =>
    intro attempt sleeps hsum _
    simp only [retryAux, hop attempt]
    rw [if_neg (by simp [hr attempt])]
    by_cases hmax : cfg.maxRetries < attempt + 1
    · have hattempt : attempt = cfg.maxRetries := by omega
      subst hattempt
      exact ⟨sleeps, by rw [if_pos hmax]⟩
    · rw [if_neg hmax]
      exact ih (attempt + 1) _ (by omega) (by omega)

/-- C5: over any invocation-outcome oracle, `retryWithBackoff` returns a
trace; it invokes the operation at most `maxRetries + 1` times; a first
failure that classifies as non-retryable is rethrown after exactly one
invocation with no backoff sleep; and when every invocation fails with a
retryable error, the error of the final invocation is rethrown after
`maxRetries + 1` invocations. -/
theorem retryWithBackoff_spec {T : Type} (dateMs : String → ℚ) (nowMs : ℚ)
    (op : Nat → Except (Option JsError) T) (cfg : RetryConfig) (rand : Nat → ℚ) :
    (retryWithBackoff dateMs nowMs op cfg rand).isSome = true ∧
    (∀ r, retryWithBackoff dateMs nowMs op cfg rand = some r →
      r.invocations ≤ cfg.maxRetries + 1) ∧
    (∀ e, op 0 = Except.error e →
      (classifyError dateMs nowMs e).retryable = false →
      retryWithBackoff dateMs nowMs op cfg rand =
        some { result := Except.error e, invocations := 1, sleeps := [] }) ∧
    (∀ es : Nat → Option JsError, (∀ k, op k = Except.error (es k)) →
      (∀ k, (classifyError dateMs nowMs (es k)).retryable = true) →
      ∃ r, retryWithBackoff dateMs nowMs op cfg rand = some r ∧
        r.result = Except.error (es cfg.maxRetries) ∧
        r.invocations = cfg.maxRetries + 1) := by
  refine ⟨?_, ?_, ?_, ?_⟩
  · exact retryAux_isSome dateMs nowMs op cfg rand (cfg.maxRetries + 1) 0 []
      (by omega) (by omega)
  · intro r h
    have := retryAux_invocations_le dateMs nowMs op cfg rand (cfg.maxRetries + 1) 0 [] r h
    omega
  · intro e h0 hcl
    unfold retryWithBackoff
    simp only [retryAux, h0]
    rw [if_pos hcl]
  · intro es hop hr
    obtain ⟨sl, hsl⟩ := retryAux_all_fail dateMs nowMs op cfg rand es hop hr
      (cfg.maxRetries + 1) 0 [] (by omega) (by omega)
    exact ⟨_, hsl, rfl, rfl⟩

/-- A 404 client error, for witnesses. -/
def err404 : JsError := { JsError.empty with status := some 404 }

/-- Witness for `retryWithBackoff_spec`: an operation that always throws a
404 (non-retryable) is invoked once and its error rethrown, with no sleep. -/
theorem retryWithBackoff_spec_witness :
    retryWithBackoff (fun _ => 0) 0
      (fun _ => (Except.error (some err404) : Except (Option JsError) Nat))
      DEFAULT_RETRY_CONFIG (fun _ => 0) =
      some { result := Except.error (some err404), invocations := 1, sleeps := [] } :=
  (retryWithBackoff_spec (fun _ => 0) 0 _ DEFAULT_RETRY_CONFIG (fun _ => 0)).2.2.1
    (some err404) rfl rfl

/-! ### Rate-limit delay (C6) -/

theorem classifyError_err429 :
    classifyError (fun _ => 0) 0 (some err429) =
      { type := ErrorType.rate_limit, retryable := true, retryAfter := some 5000 } := by
  have h2 : parseRetryAfterHeader (fun _ => 0) 0 (some "5") = 5000 := by
    simp only [parseRetryAfterHeader, show jsTruthyStr (some "5") = some "5" from rfl,
      show jsParseInt "5" = some 5 from rfl]
    norm_num
  simp only [classifyError]
  rw [if_pos (show statusOf err429 = some 429 from rfl),
    show jsOrStr (headersOf err429).retryAfterLower (headersOf err429).retryAfterUpper
      = some "5" from rfl, h2]

/-- An operation that is rate-limited once and then succeeds. -/
def c6op : Nat → Except (Option JsError) Nat :=
  fun k => if k = 0 then Except.error (some err429) else Except.ok 0

theorem retryAux_step_retry {T : Type} (dateMs : String → ℚ) (nowMs : ℚ)
    (op : Nat → Except (Option JsError) T) (cfg : RetryConfig) (rand : Nat → ℚ)
    (attempt fuel : Nat) (sleeps : List (ℚ × ℤ)) (e : Option JsError)
    (hop : op attempt = Except.error e)
    (hr : (classifyError dateMs nowMs e).retryable = true)
    (hmax : ¬ cfg.maxRetries < attempt + 1) :
    retryAux dateMs nowMs op cfg rand attempt (fuel + 1) sleeps =
      retryAux dateMs nowMs op cfg rand (attempt + 1) fuel
        (sleeps ++ [(retryDelay dateMs nowMs cfg rand attempt e,
          sleepWithJitter (retryDelay dateMs nowMs cfg rand attempt e)
            (rand (2 * attempt + 1)))]) := by
  simp only [retryAux, hop]
  rw [if_neg (by simp [hr]), if_neg hmax]

theorem retryAux_step_ok {T : Type} (dateMs : String → ℚ) (nowMs : ℚ)
    (op : Nat → Except (Option JsError) T) (cfg : RetryConfig) (rand : Nat → ℚ)
    (attempt fuel : Nat) (sleeps : List (ℚ × ℤ)) (v : T)
    (hop : op attempt = Except.ok v) :
    retryAux dateMs nowMs op cfg rand attempt (fuel + 1) sleeps =
      some { result := Except.ok v, invocations := attempt + 1, sleeps := sleeps } := by
  simp [retryAux, hop]

/-- C6 counterexample: a 429 carrying `Retry-After: 5` followed by a
success, with random draw 1/2 throughout.  The wrapper picks the 5000 ms
server delay, but `sleepWithJitter` then sleeps
`floor(5000 + 5000 * 0.1 * 0.5) = 5250` ms — not exactly the
server-specified 5000 ms. -/
theorem retry_rateLimit_sleep_jittered :
    retryWithBackoff (fun _ => 0) 0 c6op ⟨1, 1000, 30000⟩ (fun _ => 1/2) =
      some { result := Except.ok 0, invocations := 2, sleeps := [(5000, 5250)] } ∧
    (5250 : ℤ) ≠ 5000 := by
  refine ⟨?_, by norm_num⟩
  have h0 : retryWithBackoff (fun _ => 0) 0 c6op ⟨1, 1000, 30000⟩ (fun _ => 1/2) =
      retryAux (fun _ => 0) 0 c6op ⟨1, 1000, 30000⟩ (fun _ => 1/2) 0 (1 + 1) [] := rfl
  rw [h0, retryAux_step_retry (fun _ => 0) 0 c6op ⟨1, 1000, 30000⟩ (fun _ => 1/2)
      0 1 [] (some err429) rfl (by rw [classifyError_err429]) (by norm_num),
    retryAux_step_ok (fun _ => 0) 0 c6op ⟨1, 1000, 30000⟩ (fun _ => 1/2) (0 + 1) 0 _ 0 rfl]
  have hd : retryDelay (fun _ => 0) 0 ⟨1, 1000, 30000⟩ (fun _ => 1/2) 0 (some err429) = 5000 := by
    rw [retryDelay, classifyError_err429]
    norm_num [raTruthy]
  rw [hd]
  have hs : sleepWithJitter 5000 (1/2 : ℚ) = 5250 := by
    rw [sleepWithJitter]
    norm_num
  rw [hs]
  norm_num

/-- C6 (amended): when the first failure classifies as `rate_limit` with a
truthy (non-zero) `retryAfter` and retries remain, the *delay* handed to
the sleep is exactly the server-specified duration — never an
exponential-backoff-computed value — and the milliseconds actually slept
are `floor(retryAfter + retryAfter * 0.1 * random)`, i.e. the server
delay plus up to 10% jitter. -/
theorem retry_rateLimit_delay {T : Type} (dateMs : String → ℚ) (nowMs : ℚ)
    (op : Nat → Except (Option JsError) T) (cfg : RetryConfig) (rand : Nat → ℚ)
    (e : Option JsError) (ra : ℚ)
    (h0 : op 0 = Except.error e)
    (hcl : classifyError dateMs nowMs e =
      { type := .rate_limit, retryable := true, retryAfter := some ra })
    (hra : ra ≠ 0) (hmr : 1 ≤ cfg.maxRetries) :
    ∀ r, retryWithBackoff dateMs nowMs op cfg rand = some r →
      r.sleeps.head? = some (ra, sleepWithJitter ra (rand 1)) := by
  intro r hr
  have hd : retryDelay dateMs nowMs cfg rand 0 e = ra := by
    rw [retryDelay, hcl]
    simp [raTruthy, hra]
  have hstep := retryAux_step_retry dateMs nowMs op cfg rand 0 cfg.maxRetries [] e h0
    (by rw [hcl]) (by omega)
  rw [show retryWithBackoff dateMs nowMs op cfg rand =
      retryAux dateMs nowMs op cfg rand 0 (cfg.maxRetries + 1) [] from rfl,
    hstep, hd] at hr
  obtain ⟨suffix, hsl⟩ := retryAux_sleeps_mono dateMs nowMs op cfg rand
    cfg.maxRetries (0 + 1) _ r hr
  rw [hsl]
  rfl

/-- Witness for `retry_rateLimit_delay` on the concrete rate-limited
operation: the first (and only) sleep is the 5000 ms server delay and the
jittered 5250 ms actually slept. -/
theorem retry_rateLimit_delay_witness :
    ((retryWithBackoff (fun _ => 0) 0 c6op ⟨1, 1000, 30000⟩ (fun _ => 1/2)).getD
        { result := Except.ok 0, invocations := 0, sleeps := [] }).sleeps.head? =
      some (5000, 5250) := by
  obtain ⟨r, hr⟩ := Option.isSome_iff_exists.mp
    (retryAux_isSome (fun _ => 0) 0 c6op ⟨1, 1000, 30000⟩ (fun _ => 1/2)
      ((1 : Nat) + 1) 0 [] (by norm_num) (by norm_num))
  have hr' : retryWithBackoff (fun _ => 0) 0 c6op ⟨1, 1000, 30000⟩ (fun _ => 1/2) =
      some r := hr
  have hhead := retry_rateLimit_delay (fun _ => 0) 0 c6op ⟨1, 1000, 30000⟩
    (fun _ => 1/2) (some err429) 5000 rfl classifyError_err429 (by norm_num)
    (by norm_num) r hr'
  rw [hr', Option.getD_some, hhead,
    show sleepWithJitter 5000 ((fun _ => (1/2 : ℚ)) 1) = 5250 from by
      rw [sleepWithJitter]; norm_num]

/-! ### Chunked page writing (C9) -/

theorem strData_append (a b : String) : (a ++ b).data = a.data ++ b.data := rfl

theorem strBytes_cons (x : String) (l : List String) :
    strBytes (x :: l) = x.data ++ strBytes l := by
  simp [strBytes]

theorem writeChunksGo_cons_flush (b : Nat) (r : Route) (rs : List Route)
    (i : Nat) (c : String) (h : (i + 1) % b = 0 ∨ rs = []) :
    writeChunksGo b (r :: rs) i c =
      (c ++ rowText r) :: writeChunksGo b rs (i + 1) "" := by
  cases rs with
  | nil => simp [writeChunksGo]
  | cons x xs =>
    rcases h with h | h
    · simp [writeChunksGo, h]
    · simp at h

theorem writeChunksGo_cons_noflush (b : Nat) (r : Route) (rs : List Route)
    (i : Nat) (c : String) (hmod : ¬ (i + 1) % b = 0) (hne : rs ≠ []) :
    writeChunksGo b (r :: rs) i c =
      writeChunksGo b rs (i + 1) (c ++ rowText r) := by
  cases rs with
  | nil => exact absurd rfl hne
  | cons x xs => simp [writeChunksGo, hmod]

theorem writeChunksGo_bytes (batchSize : Nat) :
    ∀ (rs : List Route) (i : Nat) (c : String), rs ≠ [] →
      strBytes (writeChunksGo batchSize rs i c) =
        c.data ++ strBytes (rs.map rowText) := by
  intro rs
  induction rs with
  | nil => intro i c h; exact absurd rfl h
  | cons r rs' ih =>
    intro i c _
    cases rs' with
    | nil =>
      simp [writeChunksGo, strBytes, strData_append]
    | cons r' rs'' =>
      by_cases hmod : (i + 1) % batchSize = 0
      · rw [writeChunksGo_cons_flush batchSize r (r' :: rs'') i c (Or.inl hmod),
          strBytes_cons, ih (i + 1) "" (by simp)]
        simp [strBytes, strData_append, List.append_assoc]
      · rw [writeChunksGo_cons_noflush batchSize r (r' :: rs'') i c hmod (by simp),
          ih (i + 1) (c ++ rowText r) (by simp)]
        simp [strBytes, strData_append, List.append_assoc]

/-- C9: the bytes `writePageToFile` sends to the stream for one page are
the concatenation of the page's individually field-encoded rows in page
order, for every positive write-batch size — batching affects only the
chunk boundaries, never content or order. -/
theorem writePageToFile_content (batchSize : Nat) (routes : List Route)
    (hb : 0 < batchSize) :
    strBytes (writePageChunks batchSize routes) = strBytes (routes.map rowText) := by
  cases routes with
  | nil => rfl
  | cons r rs =>
    rw [writePageChunks, writeChunksGo_bytes batchSize (r :: rs) 0 "" (by simp)]
    rfl

/-- Sample routes for witnesses. -/
def wr0 : Route :=
  { from' := "/a;x", to' := "/b", type := some "PERMANENT",
    endDate := none, binding := none }

def wr1 : Route :=
  { from' := "/c", to' := "/d\"q", type := some "TEMPORARY",
    endDate := some "2030-01-01", binding := none }

/-- Witness for `writePageToFile_content`: a three-row page written with
batch size 2. -/
theorem writePageToFile_content_witness :
    0 < 2 ∧
    strBytes (writePageChunks 2 [wr0, wr1, wr0]) =
      strBytes ([wr0, wr1, wr0].map rowText) :=
  ⟨by norm_num, writePageToFile_content 2 [wr0, wr1, wr0] (by norm_num)⟩

/-! ### Export-loop timeout handling (C8) -/

theorem lookupKey_setKey {α : Type _} (l : List (String × α)) (k : String) (v : α) :
    lookupKey (setKey l k v) k = some v := by
  induction l with
  | nil => simp [setKey, lookupKey]
  | cons p ps ih =>
    by_cases h : p.1 == k
    · simp [setKey, lookupKey, h]
    · simp only [setKey, h, if_false]
      simpa [lookupKey, h] using ih

theorem lookupKey_removeKey {α : Type _} (l : List (String × α)) (k : String) :
    lookupKey (removeKey l k) k = none := by
  induction l with
  | nil => rfl
  | cons p ps ih =>
    by_cases h : p.1 == k
    · simpa [removeKey, h] using ih
    · simp only [removeKey, List.filter_cons] at ih ⊢
      simp only [h, Bool.not_false, if_pos]
      simpa [lookupKey, h] using ih

/-- After `deleteMetainfo`, the entry for that operation type and
fingerprint is gone. -/
theorem getEntry_deleteMetainfo (m : Metainfo) (ty hash : String) :
    getEntry (deleteMetainfo m ty hash).1 ty hash = none := by
  unfold deleteMetainfo getEntry
  cases h : lookupKey m ty with
  | none => simp [h]
  | some inner => simp [lookupKey_setKey, lookupKey_removeKey]

/-- The rejection value produced by the 60-second race. -/
def timeoutErr : JsError :=
  { JsError.empty with message := some "Request timeout after 60 seconds" }

/-- A metainfo document holding a checkpoint for fingerprint `h1`. -/
def metainfo8 : Metainfo :=
  [("exports", [("h1", ⟨0, ⟨some "tok", 7⟩⟩)])]

/-- C8 (code bug): the claim — and the code's own log lines (`Clearing
saved progress and starting fresh...`) — say a timed-out page fetch makes
the pagination loop continue from page 0.  The catch branch does delete
the checkpoint entry for the run's fingerprint and does reset the cursor
to `undefined` and the row count to 0, but its `continue` sits inside
`do { ... } while (next)`: ECMAScript sends `continue` to the
`while (next)` *test*, and `next` was just set to `undefined`, so the
test is falsy and the loop exits — the export falls through to the
drain/cleanup/`Finished!` path and completes with partial data, never
refetching page 0.  Evaluated here at the literal timeout rejection
against a stored checkpoint. -/
theorem exportCatch_timeout_exits_loop :
    handleExportCatch (fun _ => 0) 0 "h1" (some timeoutErr) metainfo8
        (some "tok") 7 =
      { metainfo := (deleteMetainfo metainfo8 "exports" "h1").1,
        next := none, routeCount := 0, saves := 0,
        deletedCheckpoint := true, outcome := .exitLoop } ∧
    getEntry (handleExportCatch (fun _ => 0) 0 "h1" (some timeoutErr) metainfo8
      (some "tok") 7).metainfo "exports" "h1" = none ∧
    (handleExportCatch (fun _ => 0) 0 "h1" (some timeoutErr) metainfo8
      (some "tok") 7).outcome ≠ CatchOutcome.nextIteration := by
  have hout : handleExportCatch (fun _ => 0) 0 "h1" (some timeoutErr) metainfo8
      (some "tok") 7 =
      { metainfo := (deleteMetainfo metainfo8 "exports" "h1").1,
        next := none, routeCount := 0, saves := 0,
        deletedCheckpoint := true, outcome := .exitLoop } := rfl
  refine ⟨hout, ?_, ?_⟩
  · rw [hout]
    exact getEntry_deleteMetainfo metainfo8 "exports" "h1"
  · rw [hout]
    simp

/-! ### Write-queue invariant (C1, C2) -/

/-- Byte-level content of one page's chunks equals the page's rows, for
any batch size (shared between the page-content and queue theorems). -/
theorem writePageChunks_bytes (batchSize : Nat) (routes : List Route) :
    strBytes (writePageChunks batchSize routes) = strBytes (routes.map rowText) := by
  cases routes with
  | nil => rfl
  | cons r rs =>
    rw [writePageChunks, writeChunksGo_bytes batchSize (r :: rs) 0 "" (by simp)]
    rfl

/-- The inductive invariant of a queue execution: pages `0..nextExpected-1`
have been written, in order; the pending map holds exactly the submitted
but unwritten pages; when no drain runs, the next expected page is not
pending and the accumulator is zero; and the completed calls' returns plus
the active accumulator account for every written row. -/
structure QInv (pages : Nat → List Route) (batchSize N : Nat) (s : QState) : Prop where
  rem_lt : ∀ a ∈ s.remaining, a < N
  pending_mem : ∀ a, a ∈ s.pending ↔
    (a < N ∧ a ∉ s.remaining ∧ s.nextExpected ≤ a)
  written_arrived : ∀ a, a < s.nextExpected → a < N ∧ a ∉ s.remaining
  idle_next : s.draining = false → s.nextExpected ∉ s.pending
  idle_acc : s.draining = false → s.acc = 0
  chunks_eq : s.chunks = (List.range s.nextExpected).flatMap (writePage pages batchSize)
  sum_eq : s.returns.sum + s.acc =
    ((List.range s.nextExpected).map (fun i => (pages i).length)).sum
  len_eq : s.returns.length + (cond s.draining 1 0) + s.remaining.card = N

theorem qinv_init (pages : Nat → List Route) (batchSize N : Nat) :
    QInv pages batchSize N (qinit N) := by
  refine ⟨?_, ?_, ?_, ?_, ?_, ?_, ?_, ?_⟩
  · intro a ha
    simpa [qinit] using ha
  · intro a
    simp [qinit, Finset.mem_range]
  · intro a ha
    simp [qinit] at ha
  · intro _
    simp [qinit]
  · intro _
    rfl
  · rfl
  · rfl
  · simp [qinit]

theorem qstep_inv (pages : Nat → List Route) (batchSize N : Nat)
    (s s' : QState) (st : QStep)
    (hinv : QInv pages batchSize N s)
    (hstep : qstep pages batchSize s st = some s') :
    QInv pages batchSize N s' := by
  cases st with
  | arrive i =>
    by_cases hi : i ∈ s.remaining
    case neg => simp [qstep, hi] at hstep
    case pos =>
      have hiN : i < N := hinv.rem_lt i hi
      have hile : s.nextExpected ≤ i := by
        by_contra h
        push_neg at h
        exact (hinv.written_arrived i h).2 hi
      have hcard : (s.remaining.erase i).card = s.remaining.card - 1 :=
        Finset.card_erase_of_mem hi
      have hpos : 0 < s.remaining.card := Finset.card_pos.mpr ⟨i, hi⟩
      have hlen := hinv.len_eq
      simp only [qstep, if_pos hi] at hstep
      split at hstep
      · -- a drain is running: enqueue and return 0
        rename_i hd
        cases hstep
        rw [hd] at hlen
        refine ⟨?_, ?_, ?_, ?_, ?_, ?_, ?_, ?_⟩
        · intro a ha
          exact hinv.rem_lt a (Finset.mem_of_mem_erase ha)
        · intro a
          simp only [Finset.mem_insert, Finset.mem_erase, hinv.pending_mem a]
          constructor
          · rintro (rfl | ⟨haN, har, han⟩)
            · exact ⟨hiN, fun hc => hc.1 rfl, hile⟩
            · exact ⟨haN, fun hc => har hc.2, han⟩
          · rintro ⟨haN, har, han⟩
            by_cases hai : a = i
            · exact Or.inl hai
            · exact Or.inr ⟨haN, fun hc => har ⟨hai, hc⟩, han⟩
        · intro a ha
          obtain ⟨h1, h2⟩ := hinv.written_arrived a ha
          exact ⟨h1, fun hc => h2 (Finset.mem_of_mem_erase hc)⟩
        · intro hfalse
          rw [hd] at hfalse
          cases hfalse
        · intro hfalse
          rw [hd] at hfalse
          cases hfalse
        · exact hinv.chunks_eq
        · simpa using hinv.sum_eq
        · simp only [List.length_append, List.length_cons, List.length_nil,
            hcard, hd, Bool.cond_true] at hlen ⊢
          omega
      · rename_i hd
        rw [Bool.not_eq_true] at hd
        rw [hd] at hlen
        simp only [Bool.cond_false] at hlen
        split at hstep
        · -- no drain running and the next expected page just arrived:
          -- it is this call's page; write it and become the drainer
          rename_i hmem
          have hni : s.nextExpected = i := by
            rcases Finset.mem_insert.mp hmem with h | h
            · exact h
            · exact absurd h (hinv.idle_next hd)
          subst hni
          cases hstep
          have hacc := hinv.idle_acc hd
          have hpe : (insert s.nextExpected s.pending).erase s.nextExpected
              = s.pending := by
            apply Finset.erase_insert
            intro hc
            exact absurd hc (hinv.idle_next hd)
          refine ⟨?_, ?_, ?_, ?_, ?_, ?_, ?_, ?_⟩
          · intro a ha
            exact hinv.rem_lt a (Finset.mem_of_mem_erase ha)
          · intro a
            simp only [writeNext, hpe, Finset.mem_erase, hinv.pending_mem a]
            constructor
            · rintro ⟨haN, har, han⟩
              refine ⟨haN, fun hc => har hc.2, ?_⟩
              rcases Nat.lt_or_ge a (s.nextExpected + 1) with h | h
              · exfalso
                have heq : a = s.nextExpected := by omega
                subst heq
                exact absurd hi har
              · exact h
            · rintro ⟨haN, har, han⟩
              refine ⟨haN, fun hc => har ⟨by omega, hc⟩, by omega⟩
          · intro a ha
            simp only [writeNext] at ha
            rcases Nat.lt_or_ge a s.nextExpected with h | h
            · obtain ⟨h1, h2⟩ := hinv.written_arrived a h
              exact ⟨h1, fun hc => h2 (Finset.mem_of_mem_erase hc)⟩
            · have heq : a = s.nextExpected := by omega
              subst heq
              exact ⟨hiN, fun hc => (Finset.mem_erase.mp hc).1 rfl⟩
          · intro hfalse
            cases hfalse
          · intro hfalse
            cases hfalse
          · simp only [writeNext, hinv.chunks_eq, List.range_succ,
              List.flatMap_append, List.flatMap_cons, List.flatMap_nil,
              List.append_nil]
          · simp only [writeNext, List.range_succ, List.map_append,
              List.sum_append, List.map_cons, List.map_nil, List.sum_cons,
              List.sum_nil]
            have := hinv.sum_eq
            rw [hacc] at this
            omega
          · simp only [writeNext, hcard, Bool.cond_true]
            omega
        · -- no drain running, an earlier page is missing: return 0
          rename_i hmem
          cases hstep
          refine ⟨?_, ?_, ?_, ?_, ?_, ?_, ?_, ?_⟩
          · intro a ha
            exact hinv.rem_lt a (Finset.mem_of_mem_erase ha)
          · intro a
            simp only [Finset.mem_insert, Finset.mem_erase, hinv.pending_mem a]
            constructor
            · rintro (rfl | ⟨haN, har, han⟩)
              · exact ⟨hiN, fun hc => hc.1 rfl, hile⟩
              · exact ⟨haN, fun hc => har hc.2, han⟩
            · rintro ⟨haN, har, han⟩
              by_cases hai : a = i
              · exact Or.inl hai
              · exact Or.inr ⟨haN, fun hc => har ⟨hai, hc⟩, han⟩
          · intro a ha
            obtain ⟨h1, h2⟩ := hinv.written_arrived a ha
            exact ⟨h1, fun hc => h2 (Finset.mem_of_mem_erase hc)⟩
          · intro _
            exact hmem
          · intro _
            exact hinv.idle_acc hd
          · exact hinv.chunks_eq
          · simpa using hinv.sum_eq
          · simp only [List.length_append, List.length_cons, List.length_nil,
              hcard, hd, Bool.cond_false]
            omega
  | drain =>
    by_cases hd : s.draining
    case neg => simp [qstep, hd] at hstep
    case pos =>
      have hlen := hinv.len_eq
      rw [hd] at hlen
      simp only [Bool.cond_true] at hlen
      simp only [qstep, if_pos hd] at hstep
      split at hstep
      · -- the next expected page is queued: write it
        rename_i hmem
        cases hstep
        obtain ⟨hnN, hnr, _⟩ := (hinv.pending_mem s.nextExpected).mp hmem
        refine ⟨?_, ?_, ?_, ?_, ?_, ?_, ?_, ?_⟩
        · exact hinv.rem_lt
        · intro a
          simp only [writeNext, Finset.mem_erase, hinv.pending_mem a]
          constructor
          · rintro ⟨hne, haN, har, han⟩
            exact ⟨haN, har, by omega⟩
          · rintro ⟨haN, har, han⟩
            exact ⟨by omega, haN, har, by omega⟩
        · intro a ha
          simp only [writeNext] at ha
          rcases Nat.lt_or_ge a s.nextExpected with h | h
          · exact hinv.written_arrived a h
          · have heq : a = s.nextExpected := by omega
            subst heq
            exact ⟨hnN, hnr⟩
        · intro hfalse
          simp only [writeNext] at hfalse
          rw [hd] at hfalse
          cases hfalse
        · intro hfalse
          simp only [writeNext] at hfalse
          rw [hd] at hfalse
          cases hfalse
        · simp only [writeNext, hinv.chunks_eq, List.range_succ,
            List.flatMap_append, List.flatMap_cons, List.flatMap_nil,
            List.append_nil]
        · simp only [writeNext, List.range_succ, List.map_append,
            List.sum_append, List.map_cons, List.map_nil, List.sum_cons,
            List.sum_nil]
          have := hinv.sum_eq
          omega
        · simp only [writeNext, hd, Bool.cond_true]
          omega
      · -- nothing more to write: finish the drain, returning the count
        rename_i hmem
        cases hstep
        refine ⟨?_, ?_, ?_, ?_, ?_, ?_, ?_, ?_⟩
        · exact hinv.rem_lt
        · exact hinv.pending_mem
        · exact hinv.written_arrived
        · intro _
          exact hmem
        · intro _
          rfl
        · exact hinv.chunks_eq
        · simp only [List.sum_append, List.sum_cons, List.sum_nil]
          have := hinv.sum_eq
          omega
        · simp only [List.length_append, List.length_cons, List.length_nil,
            Bool.cond_false]
          omega

theorem qrun_inv (pages : Nat → List Route) (batchSize N : Nat) :
    ∀ (tr : List QStep) (s s' : QState), QInv pages batchSize N s →
      qrun pages batchSize s tr = some s' → QInv pages batchSize N s' := by
  intro tr
  induction tr with
  | nil =>
    intro s s' h hr
    simp only [qrun, Option.some.injEq] at hr
    subst hr
    exact h
  | cons st tr ih =>
    intro s s' h hr
    simp only [qrun] at hr
    cases hq : qstep pages batchSize s st with
    | none => rw [hq] at hr; cases hr
    | some s1 =>
      rw [hq] at hr
      exact ih s1 s' (qstep_inv pages batchSize N s s1 st h hq) hr

/-- In a complete execution the queue has advanced through every page. -/
theorem qcomplete_next (pages : Nat → List Route) (batchSize N : Nat)
    (s : QState) (h : QInv pages batchSize N s) (hc : QComplete s) :
    s.nextExpected = N := by
  obtain ⟨hrem, hdr⟩ := hc
  have hle : s.nextExpected ≤ N := by
    by_contra hlt
    push_neg at hlt
    have := (h.written_arrived N (by omega)).1
    omega
  rcases Nat.lt_or_ge s.nextExpected N with hlt | hge
  · exfalso
    have hmem : s.nextExpected ∈ s.pending :=
      (h.pending_mem s.nextExpected).mpr ⟨hlt, by simp [hrem], le_rfl⟩
    exact h.idle_next hdr hmem
  · omega

theorem strBytes_append (l1 l2 : List String) :
    strBytes (l1 ++ l2) = strBytes l1 ++ strBytes l2 := by
  simp [strBytes]

theorem strBytes_flatMap_writePage (pages : Nat → List Route) (batchSize : Nat) :
    ∀ is : List Nat,
      strBytes (is.flatMap (writePage pages batchSize)) =
        strBytes (is.flatMap (fun i => (pages i).map rowText)) := by
  intro is
  induction is with
  | nil => rfl
  | cons i is ih =>
    simp only [List.flatMap_cons, strBytes_append, ih]
    rw [writePage, writePageChunks_bytes]

/-- C1: in any complete execution of the write queue — every page
`0..N-1` submitted exactly once via `addPage`, in any call order and with
any interleaving of drain steps — the bytes written to the output stream
are the concatenation of the pages' encoded rows in ascending `pageIndex`
order, with no interleaving of two pages' rows. -/
theorem fileWriteQueue_ordered_output (pages : Nat → List Route)
    (batchSize N : Nat) (tr : List QStep) (s : QState)
    (hrun : qrun pages batchSize (qinit N) tr = some s)
    (hc : QComplete s) :
    strBytes s.chunks =
      strBytes ((List.range N).flatMap (fun i => (pages i).map rowText)) := by
  have hinv := qrun_inv pages batchSize N tr (qinit N) s
    (qinv_init pages batchSize N) hrun
  have hnext := qcomplete_next pages batchSize N s hinv hc
  rw [hinv.chunks_eq, hnext, strBytes_flatMap_writePage]

/-- C2: in any complete execution of the write queue, the counts returned
by the `addPage` calls (0 for a call that enqueued while a drain ran or
while an earlier page was missing, the drained row count otherwise) are
one per call, and their sum is the total number of rows across all
submitted pages. -/
theorem fileWriteQueue_returned_counts (pages : Nat → List Route)
    (batchSize N : Nat) (tr : List QStep) (s : QState)
    (hrun : qrun pages batchSize (qinit N) tr = some s)
    (hc : QComplete s) :
    s.returns.sum = ((List.range N).map (fun i => (pages i).length)).sum ∧
    s.returns.length = N := by
  have hinv := qrun_inv pages batchSize N tr (qinit N) s
    (qinv_init pages batchSize N) hrun
  have hnext := qcomplete_next pages batchSize N s hinv hc
  have hacc := hinv.idle_acc hc.2
  have hsum := hinv.sum_eq
  rw [hacc, hnext] at hsum
  have hlen := hinv.len_eq
  rw [hc.2] at hlen
  simp only [Bool.cond_false, hc.1, Finset.card_empty] at hlen
  exact ⟨by omega, by omega⟩

/-- Three concrete pages for the queue witnesses: one row, two rows, none. -/
def wpages : Nat → List Route :=
  fun i => if i = 0 then [wr0] else if i = 1 then [wr1, wr0] else []

/-- Pages 2 then 0 submitted out of order, the drain picking page 1 up. -/
def c1trace : List QStep :=
  [QStep.arrive 1, QStep.arrive 0, QStep.drain, QStep.drain]

def c1state : QState := (qrun wpages 1 (qinit 2) c1trace).getD (qinit 2)

/-- Witness for `fileWriteQueue_ordered_output`: pages submitted in the
order 1, 0 still produce the bytes of pages 0 then 1. -/
theorem fileWriteQueue_ordered_output_witness :
    strBytes c1state.chunks =
      strBytes ((List.range 2).flatMap (fun i => (wpages i).map rowText)) :=
  fileWriteQueue_ordered_output wpages 1 2 c1trace c1state rfl ⟨rfl, rfl⟩

/-- Pages 0, 1, 2 submitted while the first call's drain is still running:
the later calls return 0 and the drain credits all rows to the first. -/
def c2trace : List QStep :=
  [QStep.arrive 0, QStep.arrive 1, QStep.arrive 2,
    QStep.drain, QStep.drain, QStep.drain]

def c2state : QState := (qrun wpages 1 (qinit 3) c2trace).getD (qinit 3)

/-- Witness for `fileWriteQueue_returned_counts` on a three-page run. -/
theorem fileWriteQueue_returned_counts_witness :
    c2state.returns.sum = ((List.range 3).map (fun i => (wpages i).length)).sum ∧
    c2state.returns.length = 3 :=
  fileWriteQueue_returned_counts wpages 1 3 c2trace c2state rfl ⟨rfl, rfl⟩

end Redirects
